import Mathlib

/-
Verification of the component_group repository (sunjay/component_group).

The development shallowly embeds the two crates:

* component_group_derive: the field classifier (component_field.rs) and the
  protocol synthesizer (lib.rs) that, from a struct definition, emits the
  methods first_from_world, from_world, create, update and remove.
* component_group: the public ComponentGroup trait (src/lib.rs).

The syntactic part (a fragment of the syn AST, the classifier, and the derive
entry point) is embedded directly.  The behaviour of the generated methods is
embedded as state transformers over a model of the specs World: one
association-list storage per schema field, a list of alive entities, and
further storages for components outside the schema.
-/

set_option autoImplicit false

namespace ComponentGroup

/-! ### Model of the syn AST fragment used by the derive

Mirrors the syn types imported in component_field.rs: Type, TypePath, Path,
PathSegment, PathArguments, AngleBracketedGenericArguments, GenericArgument,
Field.  Containers are parameterized by the type of types so that `Ty` below
can close the knot as a nested inductive. -/

/-- Model of syn GenericArgument (variants Lifetime, Type, Binding, Constraint, Const). -/
inductive GenArg (T : Type) where
  | lifetime
  | type (ty : T)
  | binding (ident : String) (ty : T)
  | constraint (ident : String)
  | constExpr
  deriving Repr

/-- Model of syn PathArguments.  The Bool of `angleBracketed` models the
presence of the turbofish `colon2_token`. -/
inductive PathArgs (T : Type) where
  | none
  | angleBracketed (colon2 : Bool) (args : List (GenArg T))
  | parenthesized
  deriving Repr

/-- Model of syn PathSegment: an identifier with its arguments. -/
structure PathSeg (T : Type) where
  ident : String
  arguments : PathArgs T
  deriving Repr

/-- Model of syn Path.  The Bool models the presence of the `leading_colon` token. -/
structure PathT (T : Type) where
  leading_colon : Bool
  segments : List (PathSeg T)
  deriving Repr

/-- Model of syn Type.  `path`'s first Bool models the presence of a qself.
Forms other than `path` are never inspected by the classifier; a
representative sample of them is kept so that the "any other type form"
branches are genuinely exercised. -/
inductive Ty where
  | path (qself : Bool) (p : PathT Ty)
  | reference (mutable : Bool) (inner : Ty)
  | slice (inner : Ty)
  | tuple (elems : List Ty)
  | traitObject
  | implTrait
  | never
  | infer
  | verbatim (tokens : String)
  deriving Repr

/-- Abbreviation matching the source's `Path` name. -/
abbrev Path := PathT Ty

/-- Model of syn Field: an optional name (None for tuple-struct fields) and a type. -/
structure Field where
  ident : Option String
  ty : Ty
  deriving Repr

/-! ### Field classifier (component_field.rs) -/

/-- Embedding of `inner_option_type` (component_field.rs lines 16-41): returns
the inner type of the Option if the given path represents the Option type.
The path must have no leading colon and exactly one segment; that segment must
be named `Option` and carry an angle-bracketed argument list without a
turbofish token holding exactly one argument, which must be a type. -/
def inner_option_type (path : Path) : Option Ty :=
  match path with
  | ⟨false, segments⟩ =>
    if segments.length = 1 then
      match segments.getLast? with
      | some ⟨type_name, PathArgs.angleBracketed false args⟩ =>
        if type_name = "Option" ∧ args.length = 1 then
          match args.getLast? with
          | some (GenArg.type ty) => some ty
          | _ => none
        else none
      | _ => none
    else none
  | _ => none

/-- Embedding of `ComponentField` (component_field.rs lines 48-53): one of the
components in a group, potentially optional. -/
structure ComponentField where
  ident : String
  ty : Ty
  is_optional : Bool
  deriving Repr

/-- Embedding of `impl From<&Field> for ComponentField` (component_field.rs
lines 55-77).  A field whose type is a path without qself is tested with
`inner_option_type`; on success the inner type is kept with the optional
flag set, otherwise (and for every non-path type) the declared type is kept
unchanged and the field is required. -/
def ComponentField.ofField (f : Field) : ComponentField :=
  let p : Ty × Bool :=
    match f.ty with
    | Ty.path false path =>
      match inner_option_type path with
      | some ty => (ty, true)
      | _ => (f.ty, false)
    | _ => (f.ty, false)
  { ident := f.ident.iget, ty := p.1, is_optional := p.2 }

/-- Written from the spec's words (section 4.1, and the invariant in section 3):
the declared type matches the Option pattern with inner type `inner` iff it is
a type-path with no qself, no leading path separator, exactly one segment whose
identifier is exactly `Option`, carrying an angle-bracketed (no turbofish)
argument list with exactly one argument, that argument being the type `inner`.
This definition is compared against the classifier embedded from the source. -/
def specOptionInner : Ty → Option Ty
  | Ty.path false ⟨false, [⟨"Option", PathArgs.angleBracketed false [GenArg.type inner]⟩]⟩ =>
      some inner
  | _ => none

/-! ### Derive entry point (component_group_derive/src/lib.rs lines 28-55) -/

/-- Model of syn Fields: named fields, unnamed (tuple) fields, or a unit struct. -/
inductive FieldsSyn where
  | named (fields : List Field)
  | unnamed (tys : List Ty)
  | unit
  deriving Repr

/-- Model of syn Data: the body of a DeriveInput. -/
inductive DataSyn where
  | dataStruct (fields : FieldsSyn)
  | dataEnum
  | dataUnion
  deriving Repr

/-- Output of the derive: either a compile error token stream carrying the
diagnostic message, or the impl of the trait, synthesized from the classified
fields. -/
inductive DeriveOutput where
  | compileError (msg : String)
  | implGroup (fields : List ComponentField)
  deriving Repr

/-- Embedding of `derive_component_group` (lib.rs lines 29-51): a struct with
named fields derives the impl unless it has no fields; any other struct shape,
enum or union is rejected with a diagnostic. -/
def derive_component_group (data : DataSyn) : DeriveOutput :=
  match data with
  | DataSyn.dataStruct (FieldsSyn.named fields) =>
    if fields.isEmpty then
      DeriveOutput.compileError "struct must have at least one field to derive ComponentGroup"
    else
      DeriveOutput.implGroup (fields.map ComponentField.ofField)
  | DataSyn.dataStruct _ =>
    DeriveOutput.compileError "Only structs with named fields are supported"
  | DataSyn.dataEnum =>
    DeriveOutput.compileError "Only structs with named fields are supported"
  | DataSyn.dataUnion =>
    DeriveOutput.compileError "Only structs with named fields are supported"

/-! ### Public surface of the component_group crate (src/lib.rs)

The trait ComponentGroup (src/lib.rs lines 633-662) declares, in order, the
associated type UpdateError and the methods first_from_world, from_world,
create and update.  The crate root additionally re-exports the derive; the
only item it declares itself is the trait. -/

/-- Names of the items declared inside the ComponentGroup trait (src/lib.rs
lines 633-662), in declaration order. -/
def componentGroupTraitItems : List String :=
  ["UpdateError", "first_from_world", "from_world", "create", "update"]

/-- Names of the public items declared at the root of the component_group
crate (src/lib.rs): the trait itself plus the glob re-export of the derive
crate. -/
def crateRootItems : List String :=
  ["ComponentGroup"]

/-! ### Runtime model of the generated methods

The generated methods act on a specs World.  The model keeps, for the record's
schema, one storage per field in schema order, together with the set of alive
entities, the next fresh entity id, and the storages of components that are not
part of the schema.  A storage is an association list from entity ids to
component values; `insertVal` overwrites (specs WriteStorage::insert replaces
any existing component) and fails at the call sites exactly when the entity is
not alive (specs returns Error::WrongGeneration for a dead entity), while
`eraseKey` models WriteStorage::remove, which never fails and returns the
removed value if any. -/

/-- Entities are modelled as natural-number ids. -/
abbrev Entity := Nat

/-- An association-list storage from entities to component values, the model of
one specs storage for a single component type. -/
def Storage (V : Type) := List (Entity × V)

namespace Storage

variable {V : Type}

/-- Model of ReadStorage::get / WriteStorage::get: the first value stored for
the entity, if any. -/
def get (st : Storage V) (e : Entity) : Option V :=
  match st with
  | [] => none
  | (k, v) :: rest => if k = e then some v else get rest e

/-- Model of the removal part of WriteStorage::remove: drop every entry for the
entity. -/
def eraseKey (st : Storage V) (e : Entity) : Storage V :=
  match st with
  | [] => []
  | (k, v) :: rest => if k = e then eraseKey rest e else (k, v) :: eraseKey rest e

/-- Model of the overwriting insert of WriteStorage::insert: any previous value
for the entity is replaced. -/
def insertVal (st : Storage V) (e : Entity) (v : V) : Storage V :=
  (e, v) :: st.eraseKey e

end Storage

/-- One field of a synthesized schema, as the generated code sees it: its name,
the printed payload type (what `quote!(#ty)` interpolates into the expect
message), and whether the classifier marked it optional. -/
structure SField where
  name : String
  tyName : String
  optional : Bool
  deriving Repr, DecidableEq

/-- A record value is one slot per schema field, in schema order.  An optional
field's slot is exactly the Option value of the Rust field; a required field's
slot is `some` of the field's value (a Rust struct always has its required
fields populated, which the theorems carry as a well-formedness hypothesis). -/
abbrev Record (V : Type) := List (Option V)

/-- Model of the specs World as the generated code touches it: alive entities
in enumeration order, the next fresh entity id, one storage per schema field in
schema order, and the storages of every component type outside the schema. -/
structure World (V : Type) where
  alive : List Entity
  nextId : Entity
  stores : List (Storage V)
  extra : List (Storage V)

section Generated

variable {V : Type} [Inhabited V]

/-! #### from_world (lib.rs lines 109-128)

The generated method fetches one read storage per field and builds the record
with a struct literal, whose fields are evaluated in schema order.  A required
field reads `storage.get(entity).cloned().expect("expected a ... component to
be present")`; the panic is modelled as `Except.error` carrying the panic
message.  An optional field reads `storage.get(entity).cloned()` and cannot
fail. -/

/-- Diagnostic produced by from_world_method (lib.rs line 115) for a missing
required component. -/
def missingMsg (tyName : String) : String :=
  "expected a " ++ tyName ++ " component to be present"

/-- Value read for one field by the generated from_world (lib.rs lines 111-118). -/
def readValue (f : SField) (st : Storage V) (e : Entity) : Except String (Option V) :=
  if f.optional then Except.ok (st.get e)
  else
    match st.get e with
    | some v => Except.ok (some v)
    | none => Except.error (missingMsg f.tyName)

/-- Composition of the per-field reads of the generated from_world over the
schema (zipped with its storages) in schema order, short-circuiting at the
first panic. -/
def fromWorldFields (e : Entity) : List (SField × Storage V) → Except String (Record V)
  | [] => Except.ok []
  | (f, st) :: rest => do
    let v ← readValue f st e
    let vs ← fromWorldFields e rest
    Except.ok (v :: vs)

/-! #### first_from_world (lib.rs lines 82-107)

The generated method joins the entity enumeration with a `&storage` for every
required field (a hard filter) and `storage.maybe()` for every optional field
(a soft filter), takes the first joined tuple, and clones the components into
the record: `Clone::clone(value)` for required fields, `value.cloned()` for
optional ones.  The join is modelled by filtering the alive entities, in their
enumeration order, by the hard filters. -/

/-- Whether an entity passes the generated join's filters: a required field's
storage must contain it, an optional field's `.maybe()` never excludes it. -/
def joinCandidate (e : Entity) (l : List (SField × Storage V)) : Bool :=
  l.all fun fs => fs.1.optional || (fs.2.get e).isSome

/-- Record built from one joined tuple (the clones of lib.rs lines 90-96):
a required field's joined value is cloned directly, an optional field's joined
Option is cloned as is. -/
def joinClone (e : Entity) (l : List (SField × Storage V)) : Record V :=
  l.map fun fs => if fs.1.optional then fs.2.get e else some ((fs.2.get e).iget)

/-- Composition of the generated first_from_world: first alive entity passing
the join's hard filters, paired with the cloned record. -/
def firstFromWorldFields (alive : List Entity) (l : List (SField × Storage V)) :
    Option (Entity × Record V) :=
  match alive.filter (fun e => joinCandidate e l) with
  | [] => none
  | e :: _ => some (e, joinClone e l)

/-! #### create (lib.rs lines 130-151)

The generated method builds a fresh entity: a required field is attached
unconditionally with `builder.with(self.field)`, an optional field only when it
is `Some` (a `None` field is simply never attached).  Attaching to a fresh
entity cannot fail. -/

/-- Storages after the generated create attached the record's fields to the
fresh entity `e`, one fragment per field in schema order. -/
def createFields (e : Entity) : List (SField × Option V × Storage V) → List (Storage V)
  | [] => []
  | (f, slot, st) :: rest =>
    (if f.optional then
      match slot with
      | some v => st.insertVal e v
      | none => st
    else st.insertVal e slot.iget) :: createFields e rest

/-- Model of the generated create on a World: allocate the next fresh entity,
attach the record's fields, keep every non-schema storage untouched. -/
def createWorld (r : Record V) (schema : List SField) (w : World V) : Entity × World V :=
  let e := w.nextId
  (e, { alive := w.alive ++ [e]
        nextId := e + 1
        stores := createFields e (schema.zip (r.zip w.stores))
        extra := w.extra })

/-! #### update (lib.rs lines 153-177)

The generated method fetches one write storage per field and runs one fragment
per field in schema order.  A required field runs `storage.insert(entity,
self.field)?`; an optional field runs `storage.insert(entity, value)?` when the
field is `Some(value)` and `storage.remove(entity)` (never an error) when it is
`None`.  The `?` propagates the insertion failure immediately: storages of
later fields are left untouched, earlier fragments keep their effect.  specs
insertion fails exactly when the entity is dead, which the model renders as
`e ∉ alive`. -/

/-- Message standing for the specs error value (specs::error::Error, the
UpdateError of the generated impl) returned by an insertion on a dead entity. -/
def deadEntityErr : String := "WrongGeneration"

/-- Composition of the per-field fragments of the generated update, threading
the storages and aborting at the first failed insertion while keeping the
effect of the fragments already run. -/
def updateFields (alive : List Entity) (e : Entity) :
    List (SField × Option V × Storage V) → Except String Unit × List (Storage V)
  | [] => (Except.ok (), [])
  | (f, slot, st) :: rest =>
    if f.optional then
      match slot with
      | some v =>
        if alive.contains e then
          let p := updateFields alive e rest
          (p.1, st.insertVal e v :: p.2)
        else
          (Except.error deadEntityErr, st :: rest.map (fun t => t.2.2))
      | none =>
        let p := updateFields alive e rest
        (p.1, st.eraseKey e :: p.2)
    else
      if alive.contains e then
        let p := updateFields alive e rest
        (p.1, st.insertVal e slot.iget :: p.2)
      else
        (Except.error deadEntityErr, st :: rest.map (fun t => t.2.2))

/-- Effect of one update fragment on its own storage when the insertion
succeeds: overwrite for a required field and for an optional `Some` field,
removal for an optional `None` field. -/
def applyFragment (e : Entity) (x : SField × Option V × Storage V) : Storage V :=
  if x.1.optional then
    match x.2.1 with
    | some v => x.2.2.insertVal e v
    | none => x.2.2.eraseKey e
  else x.2.2.insertVal e x.2.1.iget

/-- Re-pair a zipped schema-record list with a new list of storages, keeping
each field's schema entry and record slot. -/
def withStores : List (SField × Option V × Storage V) → List (Storage V) →
    List (SField × Option V × Storage V)
  | [], _ => []
  | _, [] => []
  | x :: xs, st :: sts => (x.1, x.2.1, st) :: withStores xs sts

/-- Model of the generated update on a World: only the schema storages are
written, alive entities and non-schema storages are untouched; the result of
the method and the world after the call are both returned, since a failed
update leaves its partial effect in place. -/
def updateWorld (r : Record V) (schema : List SField) (e : Entity) (w : World V) :
    Except String Unit × World V :=
  let p := updateFields w.alive e (schema.zip (r.zip w.stores))
  (p.1, { w with stores := p.2 })

/-! #### remove (lib.rs lines 179-198)

The generated method fetches one write storage per field and builds the record
with a struct literal in schema order: a required field runs
`storage.remove(entity).expect("expected a ... component to be present")`, an
optional field runs `storage.remove(entity)`.  The panic on a missing required
component is modelled as `Except.error` with the panic message (lib.rs line
185). -/

/-- Composition of the per-field removals of the generated remove: captured
prior values paired with the storages after removal. -/
def removeFields (e : Entity) :
    List (SField × Storage V) → Except String (Record V × List (Storage V))
  | [] => Except.ok ([], [])
  | (f, st) :: rest =>
    if f.optional then do
      let p ← removeFields e rest
      Except.ok (st.get e :: p.1, st.eraseKey e :: p.2)
    else
      match st.get e with
      | some v => do
        let p ← removeFields e rest
        Except.ok (some v :: p.1, st.eraseKey e :: p.2)
      | none => Except.error (missingMsg f.tyName)

/-- Model of the generated remove on a World: only the schema storages are
written; non-schema storages, alive entities and the id allocator are
untouched. -/
def removeWorld (schema : List SField) (e : Entity) (w : World V) :
    Except String (Record V × World V) :=
  match removeFields e (schema.zip w.stores) with
  | Except.error msg => Except.error msg
  | Except.ok p => Except.ok (p.1, { w with stores := p.2 })

end Generated

/-! ## Theorems -/

/-! ### Storage lemmas -/

namespace Storage

variable {V : Type}

theorem get_insertVal_self (st : Storage V) (e : Entity) (v : V) :
    (st.insertVal e v).get e = some v := by
  simp [insertVal, get]

theorem get_eraseKey_self (st : Storage V) (e : Entity) :
    (st.eraseKey e).get e = none := by
  induction st with
  | nil => rfl
  | cons hd tl ih =>
    obtain ⟨k, v⟩ := hd
    by_cases h : k = e <;> simp [eraseKey, h, get, ih]

theorem get_eraseKey_ne (st : Storage V) (e e' : Entity) (h : e' ≠ e) :
    (st.eraseKey e).get e' = st.get e' := by
  induction st with
  | nil => rfl
  | cons hd tl ih =>
    obtain ⟨k, v⟩ := hd
    by_cases hk : k = e
    · subst hk
      simp [eraseKey, get, ih, Ne.symm h]
    · simp [eraseKey, hk, get, ih]

theorem get_insertVal_ne (st : Storage V) (e e' : Entity) (v : V) (h : e' ≠ e) :
    (st.insertVal e v).get e' = st.get e' := by
  show get ((e, v) :: st.eraseKey e) e' = st.get e'
  simp only [get]
  rw [if_neg (Ne.symm h), get_eraseKey_ne st e e' h]

theorem eraseKey_of_get_none (st : Storage V) (e : Entity) (h : st.get e = none) :
    st.eraseKey e = st := by
  induction st with
  | nil => rfl
  | cons hd tl ih =>
    obtain ⟨k, v⟩ := hd
    by_cases hk : k = e
    · simp [get, hk] at h
    · simp [get, hk] at h
      simp [eraseKey, hk, ih h]

theorem eraseKey_eraseKey (st : Storage V) (e : Entity) :
    (st.eraseKey e).eraseKey e = st.eraseKey e :=
  eraseKey_of_get_none _ _ (get_eraseKey_self st e)

theorem eraseKey_insertVal_self (st : Storage V) (e : Entity) (v : V) :
    (st.insertVal e v).eraseKey e = st.eraseKey e := by
  simp [insertVal, eraseKey, eraseKey_eraseKey]

theorem insertVal_insertVal (st : Storage V) (e : Entity) (v : V) :
    (st.insertVal e v).insertVal e v = st.insertVal e v := by
  show (e, v) :: (st.insertVal e v).eraseKey e = st.insertVal e v
  rw [eraseKey_insertVal_self]
  rfl

end Storage

/-! ### Classifier lemmas: the source classifier against the spec's pattern -/

theorem specOptionInner_some_iff (t : Ty) (inner : Ty) :
    specOptionInner t = some inner ↔
      t = Ty.path false ⟨false, [⟨"Option", PathArgs.angleBracketed false [GenArg.type inner]⟩]⟩ := by
  constructor
  · intro h
    unfold specOptionInner at h
    split at h
    · cases h
      rfl
    · cases h
  · intro h
    subst h
    rfl

theorem inner_option_type_some_iff (p : Path) (inner : Ty) :
    inner_option_type p = some inner ↔
      p = ⟨false, [⟨"Option", PathArgs.angleBracketed false [GenArg.type inner]⟩]⟩ := by
  constructor
  · intro h
    obtain ⟨lc, segs⟩ := p
    cases lc
    · by_cases hl : segs.length = 1
      · rw [List.length_eq_one] at hl
        obtain ⟨s, rfl⟩ := hl
        obtain ⟨sid, sargs⟩ := s
        cases sargs with
        | none => simp [inner_option_type] at h
        | parenthesized => simp [inner_option_type] at h
        | angleBracketed c2 args =>
          cases c2
          · simp only [inner_option_type, List.length_singleton, if_pos rfl,
              List.getLast?_singleton] at h
            by_cases hgrd : sid = "Option" ∧ args.length = 1
            · obtain ⟨hid, hlen⟩ := hgrd
              subst hid
              rw [List.length_eq_one] at hlen
              obtain ⟨a, rfl⟩ := hlen
              cases a with
              | type ty =>
                simp at h
                subst h
                rfl
              | lifetime => simp at h
              | binding i ty => simp at h
              | constraint i => simp at h
              | constExpr => simp at h
            · rw [if_neg hgrd] at h
              cases h
          · simp [inner_option_type] at h
      · simp only [inner_option_type, if_neg hl] at h
        cases h
    · cases h
  · intro h
    subst h
    rfl

theorem inner_option_type_eq_spec (p : Path) :
    inner_option_type p = specOptionInner (Ty.path false p) := by
  cases h : inner_option_type p with
  | some inner =>
    have hp := (inner_option_type_some_iff p inner).mp h
    subst hp
    exact ((specOptionInner_some_iff _ inner).mpr rfl).symm
  | none =>
    cases hs : specOptionInner (Ty.path false p) with
    | none => rfl
    | some inner =>
      have h2 := (specOptionInner_some_iff _ inner).mp hs
      have h3 : p = ⟨false, [⟨"Option", PathArgs.angleBracketed false [GenArg.type inner]⟩]⟩ := by
        injection h2
      have h4 := (inner_option_type_some_iff p inner).mpr h3
      rw [h] at h4
      cases h4

theorem specOptionInner_eq_none (t : Ty)
    (h : ∀ inner, t ≠ Ty.path false
      ⟨false, [⟨"Option", PathArgs.angleBracketed false [GenArg.type inner]⟩]⟩) :
    specOptionInner t = none := by
  cases hs : specOptionInner t with
  | none => rfl
  | some inner => exact absurd ((specOptionInner_some_iff t inner).mp hs) (h inner)

/-- C1: for every field's declared type, the classifier marks the field
optional with payload type equal to the inner type if and only if the type
matches the spec's Option pattern (a type-path with no qself, no leading path
separator, exactly one segment named exactly `Option`, carrying an
angle-bracketed non-turbofish argument list with exactly one argument that is
a type); every other declared type is marked required with payload type equal
to the declared type unchanged.  Classification is a total Lean function, so
it never fails.  `specOptionInner` is written from the spec's words;
`ComponentField.ofField` is embedded from the source. -/
theorem classifier_marks_exactly_option_pattern (f : Field) :
    (ComponentField.ofField f).is_optional = (specOptionInner f.ty).isSome
    ∧ (ComponentField.ofField f).ty = (specOptionInner f.ty).getD f.ty := by
  obtain ⟨id, t⟩ := f
  cases t with
  | path qself p =>
    cases qself
    · have hio := inner_option_type_eq_spec p
      cases h : specOptionInner (Ty.path false p) with
      | none => simp [ComponentField.ofField, hio, h]
      | some inner => simp [ComponentField.ofField, hio, h]
    · have h : specOptionInner (Ty.path true p) = none :=
        specOptionInner_eq_none _ (by intro inner heq; injection heq with h1 h2; cases h1)
      simp [ComponentField.ofField, h]
  | reference m inner =>
    have h := specOptionInner_eq_none (Ty.reference m inner) (fun i heq => Ty.noConfusion heq)
    simp [ComponentField.ofField, h]
  | slice inner =>
    have h := specOptionInner_eq_none (Ty.slice inner) (fun i heq => Ty.noConfusion heq)
    simp [ComponentField.ofField, h]
  | tuple elems =>
    have h := specOptionInner_eq_none (Ty.tuple elems) (fun i heq => Ty.noConfusion heq)
    simp [ComponentField.ofField, h]
  | traitObject =>
    have h := specOptionInner_eq_none Ty.traitObject (fun i heq => Ty.noConfusion heq)
    simp [ComponentField.ofField, h]
  | implTrait =>
    have h := specOptionInner_eq_none Ty.implTrait (fun i heq => Ty.noConfusion heq)
    simp [ComponentField.ofField, h]
  | never =>
    have h := specOptionInner_eq_none Ty.never (fun i heq => Ty.noConfusion heq)
    simp [ComponentField.ofField, h]
  | infer =>
    have h := specOptionInner_eq_none Ty.infer (fun i heq => Ty.noConfusion heq)
    simp [ComponentField.ofField, h]
  | verbatim s =>
    have h := specOptionInner_eq_none (Ty.verbatim s) (fun i heq => Ty.noConfusion heq)
    simp [ComponentField.ofField, h]

/-- C9: synthesis preconditions are checked before any code is produced.  A
named-field struct with zero fields and every non-named-struct shape produce a
schema-definition-time compile error whose message identifies the failed
precondition (the two messages are distinct), and no implementation is
emitted; a named-field struct with at least one field produces the full
implementation. -/
theorem derive_checks_preconditions :
    (∀ (f : Field) (fs : List Field),
      derive_component_group (DataSyn.dataStruct (FieldsSyn.named (f :: fs))) =
        DeriveOutput.implGroup ((f :: fs).map ComponentField.ofField))
    ∧ derive_component_group (DataSyn.dataStruct (FieldsSyn.named [])) =
        DeriveOutput.compileError "struct must have at least one field to derive ComponentGroup"
    ∧ (∀ tys, derive_component_group (DataSyn.dataStruct (FieldsSyn.unnamed tys)) =
        DeriveOutput.compileError "Only structs with named fields are supported")
    ∧ derive_component_group (DataSyn.dataStruct FieldsSyn.unit) =
        DeriveOutput.compileError "Only structs with named fields are supported"
    ∧ derive_component_group DataSyn.dataEnum =
        DeriveOutput.compileError "Only structs with named fields are supported"
    ∧ derive_component_group DataSyn.dataUnion =
        DeriveOutput.compileError "Only structs with named fields are supported"
    ∧ "struct must have at least one field to derive ComponentGroup" ≠
        "Only structs with named fields are supported" :=
  ⟨fun _ _ => rfl, rfl, fun _ => rfl, rfl, rfl, rfl, by decide⟩

/-- C3 counterexample: the ComponentGroup trait declares no operation named
exactly_one, and no LookupError type is declared in the trait or at the crate
root; the claimed convenience operation does not exist in the code. -/
theorem no_exactly_one_no_lookup_error :
    "exactly_one" ∉ componentGroupTraitItems
    ∧ "LookupError" ∉ componentGroupTraitItems
    ∧ "LookupError" ∉ crateRootItems := by decide

/-- C3 amended: the protocol exposes no exactly_one convenience operation and
no LookupError type with NoMatch/Ambiguous variants; the only first-match
convenience the trait exposes is first_from_world, which returns an Option
(None when no entity satisfies the required fields) instead of a Result. -/
theorem trait_lookup_convenience_is_first_from_world :
    "first_from_world" ∈ componentGroupTraitItems
    ∧ "exactly_one" ∉ componentGroupTraitItems
    ∧ "LookupError" ∉ crateRootItems
    ∧ ∀ (V : Type) [Inhabited V] (l : List (SField × Storage V)),
        firstFromWorldFields [] l = none := by
  refine ⟨by decide, by decide, by decide, ?_⟩
  intro V _ l
  rfl

/-- C2 counterexample: for a schema with one required field of payload type
Health and an entity absent from its storage, the generated from_world panics
with the exact message produced by lib.rs line 115, and that message does not
contain the word "bug". -/
theorem from_world_panic_message_lacks_bug :
    fromWorldFields (V := Nat) 0 [(⟨"health", "Health", false⟩, [])] =
      Except.error "expected a Health component to be present"
    ∧ ¬ List.IsInfix "bug".toList ("expected a Health component to be present").toList :=
  ⟨rfl, by decide⟩

section GenTheorems

variable {V : Type}

theorem fromWorldFields_cons (e : Entity) (f : SField) (st : Storage V)
    (rest : List (SField × Storage V)) :
    fromWorldFields e ((f, st) :: rest) =
      Except.bind (readValue f st e)
        (fun v => Except.bind (fromWorldFields e rest) (fun vs => Except.ok (v :: vs))) := rfl

theorem readValue_optional (f : SField) (st : Storage V) (e : Entity)
    (h : f.optional = true) : readValue f st e = Except.ok (st.get e) := by
  simp [readValue, h]

theorem readValue_required_present (f : SField) (st : Storage V) (e : Entity) (v : V)
    (h : f.optional = false) (hv : st.get e = some v) :
    readValue f st e = Except.ok (some v) := by
  simp [readValue, h, hv]

theorem readValue_required_missing (f : SField) (st : Storage V) (e : Entity)
    (h : f.optional = false) (hv : st.get e = none) :
    readValue f st e = Except.error (missingMsg f.tyName) := by
  simp [readValue, h, hv]

theorem readValue_ok (f : SField) (st : Storage V) (e : Entity)
    (h : f.optional = true ∨ (st.get e).isSome = true) :
    readValue f st e = Except.ok (st.get e) := by
  rcases h with h | h
  · exact readValue_optional f st e h
  · cases hv : st.get e with
    | none => simp [hv] at h
    | some v =>
      by_cases ho : f.optional
      · exact hv ▸ readValue_optional f st e ho
      · exact hv ▸ readValue_required_present f st e v (by simpa using ho) hv

/-- C2 amended: for every schema and entity, the generated from_world, when a
required field's component is absent (and the fields before it read
successfully), aborts the call fatally with a diagnostic that names the
missing field's payload type, of the exact form "expected a ... component to
be present" (which does not contain the word "bug"); and whenever every
required field's component is present the call succeeds, each optional field
reading as its storage's Option value, so absence of an optional component
yields None and there is no failure path. -/
theorem from_world_missing_required_fatal (e : Entity)
    (l1 l2 : List (SField × Storage V)) (f : SField) (st : Storage V)
    (h1 : ∀ x ∈ l1, x.1.optional = true ∨ (x.2.get e).isSome = true)
    (h2 : f.optional = false) (h3 : st.get e = none) :
    fromWorldFields e (l1 ++ (f, st) :: l2) = Except.error (missingMsg f.tyName)
    ∧ List.IsInfix f.tyName.toList (missingMsg f.tyName).toList
    ∧ ∀ l : List (SField × Storage V),
        (∀ x ∈ l, x.1.optional = false → (x.2.get e).isSome = true) →
        fromWorldFields e l = Except.ok (l.map (fun x => x.2.get e)) := by
  refine ⟨?_, ?_, ?_⟩
  · induction l1 with
    | nil =>
      rw [List.nil_append, fromWorldFields_cons, readValue_required_missing f st e h2 h3]
      rfl
    | cons x xs ih =>
      have hx := h1 x (by simp)
      have hxs : ∀ y ∈ xs, y.1.optional = true ∨ (y.2.get e).isSome = true := by
        intro y hy
        exact h1 y (by simp [hy])
      obtain ⟨fx, stx⟩ := x
      rw [List.cons_append, fromWorldFields_cons, readValue_ok fx stx e hx]
      show Except.bind (fromWorldFields e (xs ++ (f, st) :: l2)) _ = _
      rw [ih hxs]
      rfl
  · refine ⟨"expected a ".toList, " component to be present".toList, ?_⟩
    simp [missingMsg, String.toList, String.data_append]
  · intro l hl
    induction l with
    | nil => rfl
    | cons x xs ih =>
      have hx := hl x (by simp)
      have hxs : ∀ y ∈ xs, y.1.optional = false → (y.2.get e).isSome = true := by
        intro y hy
        exact hl y (by simp [hy])
      obtain ⟨fx, stx⟩ := x
      have hok : fx.optional = true ∨ (stx.get e).isSome = true := by
        by_cases hopt : fx.optional
        · exact Or.inl hopt
        · exact Or.inr (hx (by simpa using hopt))
      rw [fromWorldFields_cons, readValue_ok fx stx e hok]
      show Except.bind (fromWorldFields e xs) _ = _
      rw [ih hxs]
      rfl

/-- Witness for from_world_missing_required_fatal at a concrete schema:
an optional Animation field followed by a required Health field whose storage
is empty panics with the Health message, and a world where the required
Position component is present while the optional Animation one is absent loads
successfully with the optional field set to None. -/
theorem from_world_missing_required_fatal_witness :
    fromWorldFields (V := Nat) 3
        [(⟨"animation", "Animation", true⟩, []), (⟨"health", "Health", false⟩, [])] =
      Except.error (missingMsg "Health")
    ∧ List.IsInfix "Health".toList (missingMsg "Health").toList
    ∧ fromWorldFields (V := Nat) 3
        [(⟨"position", "Position", false⟩, [(3, 9)]), (⟨"animation", "Animation", true⟩, [])] =
      Except.ok [some 9, none] := by
  have h := from_world_missing_required_fatal (V := Nat) 3
    [(⟨"animation", "Animation", true⟩, [])] [] ⟨"health", "Health", false⟩ []
    (by decide) rfl rfl
  exact ⟨h.1, h.2.1,
    h.2.2 [(⟨"position", "Position", false⟩, [(3, 9)]), (⟨"animation", "Animation", true⟩, [])]
      (by decide)⟩

/-- C4: the generated first_from_world takes required fields as hard filters
and optional fields as soft filters.  (1) an entity is a join candidate iff
every required field's component is present for it — optional fields never
constrain candidacy, so an entity missing only optional components is still a
candidate and one missing a required component never is; (2) a returned
entity is an alive candidate and the returned record is the join's clone of
its components; (3) in that record every optional field carries exactly the
storage's Option value (None when absent) and every required field the stored
value; (4) when no alive entity passes the required filters the result is
None. -/
theorem first_from_world_required_hard_optional_soft [Inhabited V] :
    (∀ (e : Entity) (l : List (SField × Storage V)),
      joinCandidate e l =
        (l.filter (fun x => !x.1.optional)).all (fun x => (x.2.get e).isSome))
    ∧ (∀ (alive : List Entity) (l : List (SField × Storage V)) (e : Entity) (r : Record V),
      firstFromWorldFields alive l = some (e, r) →
        e ∈ alive ∧ joinCandidate e l = true ∧ r = joinClone e l)
    ∧ (∀ (e : Entity) (l : List (SField × Storage V)),
      List.Forall₂ (fun (x : SField × Storage V) (slot : Option V) =>
        (x.1.optional = true → slot = x.2.get e)
        ∧ (x.1.optional = false → slot = some ((x.2.get e).iget))) l (joinClone e l))
    ∧ (∀ (alive : List Entity) (l : List (SField × Storage V)),
      (∀ e ∈ alive, joinCandidate e l = false) → firstFromWorldFields alive l = none) := by
  refine ⟨?_, ?_, ?_, ?_⟩
  · intro e l
    induction l with
    | nil => rfl
    | cons x xs ih =>
      by_cases hopt : x.1.optional
      · simp [joinCandidate, List.filter_cons, hopt] at ih ⊢
      · simp [joinCandidate, List.filter_cons, hopt] at ih ⊢
  · intro alive l e r h
    unfold firstFromWorldFields at h
    cases hf : alive.filter (fun e => joinCandidate e l) with
    | nil => rw [hf] at h; cases h
    | cons e0 rest =>
      rw [hf] at h
      rw [Option.some.injEq, Prod.mk.injEq] at h
      obtain ⟨he, hr⟩ := h
      subst he
      subst hr
      have hmem : e0 ∈ alive.filter (fun e => joinCandidate e l) := by
        rw [hf]; exact List.mem_cons_self _ _
      rw [List.mem_filter] at hmem
      exact ⟨hmem.1, hmem.2, rfl⟩
  · intro e l
    induction l with
    | nil => exact List.Forall₂.nil
    | cons x xs ih =>
      refine List.Forall₂.cons ?_ ih
      by_cases hopt : x.1.optional
      · simp [joinClone, hopt]
      · simp [joinClone, hopt]
  · intro alive l h
    unfold firstFromWorldFields
    rw [List.filter_eq_nil_iff.mpr (by intro a ha; simp [h a ha])]

/-- Witness for first_from_world_required_hard_optional_soft: with alive
entities 0 and 1, a required Position stored only for entity 1 and an optional
Animation stored for nobody, the join skips entity 0, returns entity 1 with
the optional field None; with only entity 0 alive the result is None. -/
theorem first_from_world_required_hard_optional_soft_witness :
    (1 ∈ [0, 1]
      ∧ joinCandidate 1 [(⟨"position", "Position", false⟩, ([(1, 10)] : Storage Nat)),
          (⟨"animation", "Animation", true⟩, [])] = true
      ∧ ([some 10, none] : Record Nat) =
          joinClone 1 [(⟨"position", "Position", false⟩, ([(1, 10)] : Storage Nat)),
            (⟨"animation", "Animation", true⟩, [])])
    ∧ firstFromWorldFields [0] [(⟨"position", "Position", false⟩, ([(1, 10)] : Storage Nat)),
        (⟨"animation", "Animation", true⟩, [])] = none := by
  constructor
  · exact first_from_world_required_hard_optional_soft.2.1 [0, 1]
      [(⟨"position", "Position", false⟩, [(1, 10)]), (⟨"animation", "Animation", true⟩, [])]
      1 [some 10, none] (by rfl)
  · exact first_from_world_required_hard_optional_soft.2.2.2 [0]
      [(⟨"position", "Position", false⟩, [(1, 10)]), (⟨"animation", "Animation", true⟩, [])]
      (by decide)

theorem fromWorld_createFields [Inhabited V] (e : Entity)
    (l : List (SField × Option V × Storage V))
    (hreq : ∀ x ∈ l, x.1.optional = false → (x.2.1).isSome = true)
    (hfresh : ∀ x ∈ l, (x.2.2).get e = none) :
    fromWorldFields e ((l.map (fun x => x.1)).zip (createFields e l)) =
      Except.ok (l.map (fun x => x.2.1)) := by
  induction l with
  | nil => rfl
  | cons x xs ih =>
    obtain ⟨f, slot, st⟩ := x
    have hreq' : ∀ y ∈ xs, y.1.optional = false → (y.2.1).isSome = true :=
      fun y hy => hreq y (by simp [hy])
    have hfresh' : ∀ y ∈ xs, (y.2.2).get e = none :=
      fun y hy => hfresh y (by simp [hy])
    simp only [List.map_cons, createFields, List.zip_cons_cons]
    by_cases hopt : f.optional
    · cases slot with
      | some v =>
        rw [hopt, if_pos rfl, fromWorldFields_cons,
          readValue_optional _ _ _ hopt, Storage.get_insertVal_self]
        show Except.bind (fromWorldFields e ((xs.map (fun x => x.1)).zip (createFields e xs))) _ = _
        rw [ih hreq' hfresh']
        rfl
      | none =>
        rw [hopt, if_pos rfl, fromWorldFields_cons, readValue_optional _ _ _ hopt,
          hfresh (f, none, st) (by simp)]
        show Except.bind (fromWorldFields e ((xs.map (fun x => x.1)).zip (createFields e xs))) _ = _
        rw [ih hreq' hfresh']
        rfl
    · have hb : f.optional = false := by simpa using hopt
      obtain ⟨v, hv⟩ := Option.isSome_iff_exists.mp (hreq (f, slot, st) (by simp) hb)
      have hv' : slot = some v := hv
      subst hv'
      rw [hb, if_neg (by simp), fromWorldFields_cons]
      rw [readValue_required_present _ _ _ ((some v).iget)
        hb (by rw [Storage.get_insertVal_self])]
      show Except.bind (fromWorldFields e ((xs.map (fun x => x.1)).zip (createFields e xs))) _ = _
      rw [ih hreq' hfresh']
      rfl

/-- C5: round trip.  For every record r, schema and world whose storages have
no pre-existing component for the fresh entity, loading the entity returned by
the generated create with the generated from_world yields exactly r. -/
theorem load_after_create_identity [Inhabited V] (r : Record V) (schema : List SField)
    (w : World V)
    (hlen : schema.length = r.length) (hlen2 : r.length = w.stores.length)
    (hreq : ∀ x ∈ schema.zip (r.zip w.stores), x.1.optional = false → (x.2.1).isSome = true)
    (hfresh : ∀ st ∈ w.stores, Storage.get st w.nextId = none) :
    fromWorldFields (createWorld r schema w).1
      (schema.zip (createWorld r schema w).2.stores) = Except.ok r := by
  have hmapfst : (schema.zip (r.zip w.stores)).map (fun x => x.1) = schema := by
    apply List.map_fst_zip
    rw [List.length_zip]
    omega
  have hmapslot : (schema.zip (r.zip w.stores)).map (fun x => x.2.1) = r := by
    have h1 : (schema.zip (r.zip w.stores)).map (fun x => x.2.1) =
        ((schema.zip (r.zip w.stores)).map Prod.snd).map Prod.fst := by
      rw [List.map_map]
      rfl
    rw [h1, List.map_snd_zip _ _ (by rw [List.length_zip]; omega),
      List.map_fst_zip _ _ (by omega)]
  have hfresh' : ∀ x ∈ schema.zip (r.zip w.stores), (x.2.2).get w.nextId = none := by
    intro x hx
    exact hfresh x.2.2 (List.of_mem_zip (List.of_mem_zip hx).2).2
  have h := fromWorld_createFields w.nextId (schema.zip (r.zip w.stores)) hreq hfresh'
  rw [hmapfst, hmapslot] at h
  exact h

/-- Witness for load_after_create_identity: creating the record with a
required Position of 7 and an optional Animation of None in an empty world and
loading the fresh entity back returns the record unchanged. -/
theorem load_after_create_identity_witness :
    fromWorldFields
      (createWorld ([some 7, none] : Record Nat)
        [⟨"position", "Position", false⟩, ⟨"animation", "Animation", true⟩]
        ⟨[], 0, [[], []], []⟩).1
      ([⟨"position", "Position", false⟩, ⟨"animation", "Animation", true⟩].zip
        (createWorld ([some 7, none] : Record Nat)
          [⟨"position", "Position", false⟩, ⟨"animation", "Animation", true⟩]
          ⟨[], 0, [[], []], []⟩).2.stores) = Except.ok [some 7, none] :=
  load_after_create_identity [some 7, none]
    [⟨"position", "Position", false⟩, ⟨"animation", "Animation", true⟩]
    ⟨[], 0, [[], []], []⟩ rfl rfl (by decide) (by decide)

theorem updateFields_ok_of_alive [Inhabited V] (alive : List Entity) (e : Entity)
    (l : List (SField × Option V × Storage V)) (h : alive.contains e = true) :
    updateFields alive e l = (Except.ok (), l.map (applyFragment e)) := by
  induction l with
  | nil => rfl
  | cons x xs ih =>
    obtain ⟨f, slot, st⟩ := x
    have hm : e ∈ alive := by simpa using h
    by_cases hopt : f.optional
    · cases slot with
      | some v => simp [updateFields, applyFragment, hopt, h, hm, ih]
      | none => simp [updateFields, applyFragment, hopt, ih]
    · have hb : f.optional = false := by simpa using hopt
      simp [updateFields, applyFragment, hb, h, hm, ih]

theorem updateFields_abort [Inhabited V] (alive : List Entity) (e : Entity)
    (l1 l2 : List (SField × Option V × Storage V)) (f : SField) (slot : Option V)
    (st : Storage V) (hdead : alive.contains e = false)
    (hpre : ∀ x ∈ l1, x.1.optional = true ∧ x.2.1 = none)
    (hfall : f.optional = false ∨ slot.isSome = true) :
    updateFields alive e (l1 ++ (f, slot, st) :: l2) =
      (Except.error deadEntityErr,
        l1.map (fun x => x.2.2.eraseKey e) ++ st :: l2.map (fun t => t.2.2)) := by
  induction l1 with
  | nil =>
    have hnm : e ∉ alive := by simpa using hdead
    rcases hfall with hb | hs
    · simp [updateFields, hb, hdead, hnm]
    · obtain ⟨v, hv⟩ := Option.isSome_iff_exists.mp hs
      subst hv
      by_cases hopt : f.optional
      · simp [updateFields, hopt, hdead, hnm]
      · have hb : f.optional = false := by simpa using hopt
        simp [updateFields, hb, hdead, hnm]
  | cons x xs ih =>
    obtain ⟨fx, slotx, stx⟩ := x
    have hxopt : fx.optional = true := (hpre (fx, slotx, stx) (by simp)).1
    have hxnone : slotx = none := (hpre (fx, slotx, stx) (by simp)).2
    subst hxnone
    have hpre' : ∀ y ∈ xs, y.1.optional = true ∧ y.2.1 = none :=
      fun y hy => hpre y (by simp [hy])
    simp [updateFields, hxopt, ih hpre']

theorem withStores_self [Inhabited V] (l : List (SField × Option V × Storage V)) :
    withStores l (l.map (fun t => t.2.2)) = l := by
  induction l with
  | nil => rfl
  | cons x xs ih => simp [withStores, ih]

theorem updateFields_ok_iff [Inhabited V] (alive : List Entity) (e : Entity)
    (l : List (SField × Option V × Storage V)) :
    (updateFields alive e l).1 = Except.ok () ↔
      (alive.contains e = true ∨ ∀ x ∈ l, x.1.optional = true ∧ x.2.1 = none) := by
  induction l with
  | nil => simp [updateFields]
  | cons x xs ih =>
    obtain ⟨f, slot, st⟩ := x
    by_cases hc : alive.contains e = true
    · have hm : e ∈ alive := by simpa using hc
      by_cases hopt : f.optional
      · cases slot with
        | some v => simp [updateFields, hopt, hc, hm, ih]
        | none => simp [updateFields, hopt, hc, hm, ih]
      · have hb : f.optional = false := by simpa using hopt
        simp [updateFields, hb, hc, hm, ih]
    · have hc' : alive.contains e = false := by simpa using hc
      have hnm : e ∉ alive := by simpa using hc'
      by_cases hopt : f.optional
      · cases slot with
        | some v => simp [updateFields, hopt, hc', hnm]
        | none => simp [updateFields, hopt, hc', hnm, ih]
      · have hb : f.optional = false := by simpa using hopt
        simp [updateFields, hb, hc', hnm]

/-- C6: the generated update processes fields in schema declaration order;
when the entity is alive every fragment's insertion succeeds and the call
returns Ok with every field's fragment applied in order; when an insertion on
a required field fails (dead entity) after a prefix of infallible
optional-None fragments, the error is surfaced as the result, the already-run
removals keep their effect, and the failing field's storage and every later
field's storage are left un-updated; and Ok is returned only if every
required fragment's insertion succeeded (an Ok result with a required field
present forces the entity to be alive, i.e. its insertion to succeed). -/
theorem update_order_and_abort_on_required [Inhabited V] :
    (∀ (alive : List Entity) (e : Entity) (l : List (SField × Option V × Storage V)),
      alive.contains e = true →
      updateFields alive e l = (Except.ok (), l.map (applyFragment e)))
    ∧ (∀ (alive : List Entity) (e : Entity)
        (l1 l2 : List (SField × Option V × Storage V)) (f : SField) (slot : Option V)
        (st : Storage V),
      alive.contains e = false →
      (∀ x ∈ l1, x.1.optional = true ∧ x.2.1 = none) →
      f.optional = false →
      updateFields alive e (l1 ++ (f, slot, st) :: l2) =
        (Except.error deadEntityErr,
          l1.map (fun x => x.2.2.eraseKey e) ++ st :: l2.map (fun t => t.2.2)))
    ∧ (∀ (alive : List Entity) (e : Entity) (l : List (SField × Option V × Storage V)),
      (updateFields alive e l).1 = Except.ok () →
      ∀ x ∈ l, x.1.optional = false → alive.contains e = true) := by
  refine ⟨fun alive e l h => updateFields_ok_of_alive alive e l h,
    fun alive e l1 l2 f slot st hdead hpre hb =>
      updateFields_abort alive e l1 l2 f slot st hdead hpre (Or.inl hb), ?_⟩
  intro alive e l hok x hx hb
  rcases (updateFields_ok_iff alive e l).mp hok with hc | hall
  · exact hc
  · rw [(hall x hx).1] at hb
    cases hb

/-- Witness for update_order_and_abort_on_required: with entity 0 alive, a
required Position insert and an optional Animation removal both apply in
order; with entity 0 dead, the required Position insert coming after an
infallible optional-None fragment aborts with the error, the leading removal
applied, and the Position and later Health storages untouched. -/
theorem update_order_and_abort_on_required_witness :
    updateFields [0] 0
        ([(⟨"position", "Position", false⟩, some 4, []),
          (⟨"animation", "Animation", true⟩, none, [(0, 7)])] :
          List (SField × Option Nat × Storage Nat)) =
      (Except.ok (),
        [Storage.insertVal [] 0 4, Storage.eraseKey [(0, 7)] 0])
    ∧ updateFields ([] : List Entity) 0
        (([(⟨"animation", "Animation", true⟩, none, [(0, 7)])] :
            List (SField × Option Nat × Storage Nat)) ++
          (⟨"position", "Position", false⟩, (some 4 : Option Nat), ([(5, 5)] : Storage Nat)) ::
          [(⟨"health", "Health", false⟩, some 9, [(6, 6)])]) =
      (Except.error deadEntityErr,
        [Storage.eraseKey [(0, 7)] 0, [(5, 5)], [(6, 6)]])
    ∧ ([0] : List Entity).contains 0 = true := by
  refine ⟨?_, ?_, ?_⟩
  · exact update_order_and_abort_on_required.1 [0] 0
      [(⟨"position", "Position", false⟩, some 4, []),
       (⟨"animation", "Animation", true⟩, none, [(0, 7)])] rfl
  · exact update_order_and_abort_on_required.2.1 [] 0
      [(⟨"animation", "Animation", true⟩, none, [(0, 7)])]
      [(⟨"health", "Health", false⟩, some 9, [(6, 6)])]
      ⟨"position", "Position", false⟩ (some 4) [(5, 5)] rfl (by decide) rfl
  · exact update_order_and_abort_on_required.2.2 [0] 0
      ([(⟨"position", "Position", false⟩, some 4, [])] :
        List (SField × Option Nat × Storage Nat)) rfl
      (⟨"position", "Position", false⟩, some 4, []) (List.mem_cons_self _ _) rfl

/-- C10: an insertion failure on an optional field whose value is Some is
propagated and aborts the remaining fragments exactly like a required field's
failure, and the generated update returns Ok if and only if every insertion it
performs succeeds — in this model, iff the entity is alive or no fragment
performs an insertion at all (every field optional with value None). -/
theorem update_optional_some_failure_propagates [Inhabited V] :
    (∀ (alive : List Entity) (e : Entity)
        (l1 l2 : List (SField × Option V × Storage V)) (f : SField) (v : V)
        (st : Storage V),
      alive.contains e = false →
      (∀ x ∈ l1, x.1.optional = true ∧ x.2.1 = none) →
      f.optional = true →
      updateFields alive e (l1 ++ (f, some v, st) :: l2) =
        (Except.error deadEntityErr,
          l1.map (fun x => x.2.2.eraseKey e) ++ st :: l2.map (fun t => t.2.2)))
    ∧ (∀ (alive : List Entity) (e : Entity) (l : List (SField × Option V × Storage V)),
      (updateFields alive e l).1 = Except.ok () ↔
        (alive.contains e = true ∨ ∀ x ∈ l, x.1.optional = true ∧ x.2.1 = none)) := by
  constructor
  · intro alive e l1 l2 f v st hdead hpre _
    exact updateFields_abort alive e l1 l2 f (some v) st hdead hpre (Or.inr rfl)
  · intro alive e l
    exact updateFields_ok_iff alive e l

/-- Witness for update_optional_some_failure_propagates: with no entity alive,
an optional Animation field set to Some aborts the update exactly like a
required failure, leaving the later Health storage untouched; and an
all-optional-None update of a dead entity still reports Ok. -/
theorem update_optional_some_failure_propagates_witness :
    updateFields ([] : List Entity) 0
        (([] : List (SField × Option Nat × Storage Nat)) ++
          (⟨"animation", "Animation", true⟩, (some 2 : Option Nat), ([(0, 7)] : Storage Nat)) ::
          [(⟨"health", "Health", false⟩, some 9, [(6, 6)])]) =
      (Except.error deadEntityErr, [] ++ ([(0, 7)] : Storage Nat) :: [[(6, 6)]])
    ∧ ((updateFields ([] : List Entity) 0
        ([(⟨"animation", "Animation", true⟩, none, [(0, 7)])] :
          List (SField × Option Nat × Storage Nat))).1 = Except.ok () ↔
      (([] : List Entity).contains 0 = true ∨
        ∀ x ∈ ([(⟨"animation", "Animation", true⟩, none, [(0, 7)])] :
          List (SField × Option Nat × Storage Nat)), x.1.optional = true ∧ x.2.1 = none)) := by
  constructor
  · exact update_optional_some_failure_propagates.1 [] 0 []
      [(⟨"health", "Health", false⟩, some 9, [(6, 6)])]
      ⟨"animation", "Animation", true⟩ 2 [(0, 7)] rfl (by decide) rfl
  · exact update_optional_some_failure_propagates.2 [] 0
      [(⟨"animation", "Animation", true⟩, none, [(0, 7)])]

/-- C7: in the generated update an optional field set to None explicitly
removes the component: the fragment is a removal that contributes no error
and the removal is a no-op when the component is already absent; consequently
running the whole update twice with the same record leaves the storages
exactly as after the first run (idempotence, in particular for None optional
fields). -/
theorem update_none_removes_and_is_idempotent [Inhabited V] :
    (∀ (alive : List Entity) (e : Entity) (f : SField) (st : Storage V)
        (rest : List (SField × Option V × Storage V)),
      f.optional = true →
      updateFields alive e ((f, (none : Option V), st) :: rest) =
        ((updateFields alive e rest).1, st.eraseKey e :: (updateFields alive e rest).2))
    ∧ (∀ (st : Storage V) (e : Entity), Storage.get st e = none → st.eraseKey e = st)
    ∧ (∀ (alive : List Entity) (e : Entity) (l : List (SField × Option V × Storage V)),
      updateFields alive e (withStores l (updateFields alive e l).2) =
        updateFields alive e l) := by
  refine ⟨?_, ?_, ?_⟩
  · intro alive e f st rest h
    simp [updateFields, h]
  · intro st e h
    exact Storage.eraseKey_of_get_none st e h
  · intro alive e l
    induction l with
    | nil => rfl
    | cons x xs ih =>
      obtain ⟨f, slot, st⟩ := x
      by_cases hc : alive.contains e = true
      · have hm : e ∈ alive := by simpa using hc
        by_cases hopt : f.optional
        · cases slot with
          | some v =>
            simp [updateFields, withStores, hopt, hc, hm, ih, Storage.insertVal_insertVal]
          | none =>
            simp [updateFields, withStores, hopt, ih, Storage.eraseKey_eraseKey]
        · have hb : f.optional = false := by simpa using hopt
          simp [updateFields, withStores, hb, hc, hm, ih, Storage.insertVal_insertVal]
      · have hc' : alive.contains e = false := by simpa using hc
        have hnm : e ∉ alive := by simpa using hc'
        by_cases hopt : f.optional
        · cases slot with
          | some v =>
            simp [updateFields, withStores, hopt, hc', hnm, withStores_self]
          | none =>
            simp [updateFields, withStores, hopt, ih, Storage.eraseKey_eraseKey]
        · have hb : f.optional = false := by simpa using hopt
          simp [updateFields, withStores, hb, hc', hnm, withStores_self]

/-- Witness for update_none_removes_and_is_idempotent: an optional
Animation-None fragment removes the stored component and contributes no
error; removing from a storage without the component changes nothing; and
running the same one-field None update twice gives the same storages as
running it once. -/
theorem update_none_removes_and_is_idempotent_witness :
    updateFields [0] 0
        ((⟨"animation", "Animation", true⟩, (none : Option Nat), ([(0, 5)] : Storage Nat)) ::
          ([] : List (SField × Option Nat × Storage Nat))) =
      ((updateFields [0] 0 ([] : List (SField × Option Nat × Storage Nat))).1,
        Storage.eraseKey [(0, 5)] 0 ::
          (updateFields [0] 0 ([] : List (SField × Option Nat × Storage Nat))).2)
    ∧ Storage.eraseKey ([(4, 2)] : Storage Nat) 3 = [(4, 2)]
    ∧ updateFields [0] 0
        (withStores ([(⟨"animation", "Animation", true⟩, none, [(0, 5)])] :
            List (SField × Option Nat × Storage Nat))
          (updateFields [0] 0
            ([(⟨"animation", "Animation", true⟩, none, [(0, 5)])] :
              List (SField × Option Nat × Storage Nat))).2) =
      updateFields [0] 0
        ([(⟨"animation", "Animation", true⟩, none, [(0, 5)])] :
          List (SField × Option Nat × Storage Nat)) :=
  ⟨update_none_removes_and_is_idempotent.1 [0] 0 ⟨"animation", "Animation", true⟩ [(0, 5)] [] rfl,
   update_none_removes_and_is_idempotent.2.1 [(4, 2)] 3 rfl,
   update_none_removes_and_is_idempotent.2.2 [0] 0
     [(⟨"animation", "Animation", true⟩, none, [(0, 5)])]⟩

theorem removeFields_ok (e : Entity) (l : List (SField × Storage V))
    (hreq : ∀ x ∈ l, x.1.optional = false → (x.2.get e).isSome = true) :
    removeFields e l =
      Except.ok (l.map (fun x => x.2.get e), l.map (fun x => x.2.eraseKey e)) := by
  induction l with
  | nil => rfl
  | cons x xs ih =>
    obtain ⟨f, st⟩ := x
    have hreq' : ∀ y ∈ xs, y.1.optional = false → (y.2.get e).isSome = true :=
      fun y hy => hreq y (by simp [hy])
    by_cases hopt : f.optional
    · simp only [removeFields, hopt, if_pos rfl, ih hreq', List.map_cons]
      rfl
    · have hb : f.optional = false := by simpa using hopt
      obtain ⟨v, hv⟩ := Option.isSome_iff_exists.mp (hreq (f, st) (by simp) hb)
      simp only [removeFields, hb, Bool.false_eq_true, if_false, hv, ih hreq', List.map_cons]
      rfl

/-- C8: for every entity and world, when every required field's component is
present, the generated remove succeeds, returns the record of the prior
values of exactly the schema's components (required ones captured, optional
ones captured or None when absent, since the captured slot is the storage's
Option value), erases exactly the schema's storages at that entity — the
erased storages hold nothing for it while every other entity's components are
untouched — and leaves every non-schema storage, the alive list and the id
allocator unchanged. -/
theorem remove_detaches_exactly_schema (schema : List SField) (e : Entity) (w : World V)
    (hreq : ∀ x ∈ schema.zip w.stores, x.1.optional = false → (x.2.get e).isSome = true) :
    removeWorld schema e w =
      Except.ok ((schema.zip w.stores).map (fun x => x.2.get e),
        { alive := w.alive, nextId := w.nextId,
          stores := (schema.zip w.stores).map (fun x => x.2.eraseKey e), extra := w.extra })
    ∧ (∀ st : Storage V, (Storage.eraseKey st e).get e = none)
    ∧ (∀ (st : Storage V) (e' : Entity), e' ≠ e →
        (Storage.eraseKey st e).get e' = Storage.get st e') := by
  refine ⟨?_, fun st => Storage.get_eraseKey_self st e,
    fun st e' h => Storage.get_eraseKey_ne st e e' h⟩
  unfold removeWorld
  rw [removeFields_ok e _ hreq]

/-- Witness for remove_detaches_exactly_schema: an entity carrying a required
Position component inside the schema and a NotInGroup component outside it has
exactly the Position detached and returned; the non-schema storage is left in
place, the erased storage no longer holds the entity, and another entity's
value is untouched. -/
theorem remove_detaches_exactly_schema_witness :
    removeWorld [⟨"position", "Position", false⟩] 2
        (⟨[2], 3, [[(2, 4)]], [[(2, 9)]]⟩ : World Nat) =
      Except.ok ([some 4],
        (⟨[2], 3, [Storage.eraseKey [(2, 4)] 2], [[(2, 9)]]⟩ : World Nat))
    ∧ (Storage.eraseKey ([(2, 4)] : Storage Nat) 2).get 2 = none
    ∧ (Storage.eraseKey ([(2, 4)] : Storage Nat) 2).get 5 = Storage.get [(2, 4)] 5 := by
  have h := remove_detaches_exactly_schema [⟨"position", "Position", false⟩] 2
    (⟨[2], 3, [[(2, 4)]], [[(2, 9)]]⟩ : World Nat) (by decide)
  exact ⟨h.1, h.2.1 [(2, 4)], h.2.2 [(2, 4)] 5 (by decide)⟩

end GenTheorems

end ComponentGroup
